import Mathlib

/-!
# Verification of the osm-region-extractor pipeline

A shallow embedding of the feature-classification pipeline
(`src/scripts/extract-single.ts`), the surface-normalization table of the
earlier pipeline variant (`normalizeSurfaceType`), and the relational loader
(`src/scripts/build-sqlite.ts`), together with theorems checking the
natural-language specification against the code.

Conventions of the embedding:
* JavaScript numbers are modelled as exact rationals (`ℚ`) where the code only
  performs field arithmetic and comparisons, and as reals (`ℝ`) where the code
  calls transcendental functions (`Math.sin`, `Math.atan2`, ...).
* `Math.round x` is `round x = ⌊x + 1/2⌋` (JavaScript rounds half toward +∞).
* A JavaScript `Record<string,string>` of feature properties is modelled by the
  structure `Props`, with one `Option String` field per key the code accesses;
  JavaScript truthiness of a string (`if (props[k])`) is `truthy`: absent or
  empty strings are falsy.
* File contents are modelled as `List Char`.
-/

namespace OsmExtract

/-- JavaScript truthiness of an optional string property: `undefined` and the
empty string are falsy, every other string is truthy. -/
def truthy : Option String → Bool
  | none => false
  | some s => s ≠ ""

/-- The feature properties accessed by the pipeline, one field per key.
Models the `properties: Record<string, string>` of a GeoJSON feature
restricted to the keys the code reads. -/
structure Props where
  traffic_calming : Option String := none
  highway : Option String := none
  enforcement : Option String := none
  junction : Option String := none
  surface : Option String := none
  bridge : Option String := none
  tunnel : Option String := none
  name : Option String := none
  maxspeed : Option String := none
  ref : Option String := none
deriving DecidableEq, Repr

/-- `TrafficCalmingPoint` of extract-single.ts (lat/lon generic in the number
model). `tags` is the optional relevant-tag subset, `endLat`/`endLon` the
optional second endpoint, `wayId` the optional OSM way id. -/
structure TrafficCalmingPoint (α : Type) where
  lat : α
  lon : α
  type : String
  tags : Option (List (String × String)) := none
  endLat : Option α := none
  endLon : Option α := none
  wayId : Option ℤ := none
deriving DecidableEq, Repr

/-- `RoundaboutInfo` of extract-single.ts. `radius` is an integer number of
meters (the code stores `Math.round(radius)`, or the constant 3 for
mini-roundabouts). -/
structure RoundaboutInfo (α : Type) where
  lat : α
  lon : α
  radius : Option ℤ := none
  type : String
deriving DecidableEq, Repr

/-- `RoadSurfaceWay` of extract-single.ts: surface tag value plus flattened
coordinates `[lon1, lat1, lon2, lat2, ...]`. -/
structure RoadSurfaceWay (α : Type) where
  surface : String
  coords : List α
deriving DecidableEq, Repr

/-- `BundledRoadWay` of build-sqlite.ts: highway class plus flattened
coordinates. -/
structure RoadWayRec (α : Type) where
  highway : String
  coords : List α
deriving DecidableEq, Repr

/-- The `TRAFFIC_CALMING_TYPES` set of extract-single.ts. -/
def TRAFFIC_CALMING_TYPES : List String :=
  ["bump", "mini_bumps", "hump", "table", "cushion", "dynamic_bump", "dip", "double_dip"]

/-- The bump-family synonym list of `mapTrafficCalmingType`. -/
def bumpTypes : List String :=
  ["bump", "mini_bumps", "hump", "table", "cushion", "dynamic_bump"]

/-- The dip-family synonym list of `mapTrafficCalmingType`. -/
def dipTypes : List String := ["dip", "double_dip"]

/-- `mapTrafficCalmingType` of extract-single.ts: collapse synonyms to
`speed_bump` / `dip`, pass anything else through unchanged. -/
def mapTrafficCalmingType (osmType : String) : String :=
  if osmType ∈ bumpTypes then "speed_bump"
  else if osmType ∈ dipTypes then "dip"
  else osmType

/-- `extractRelevantTags` of extract-single.ts: keep only the allow-listed
keys, in their fixed order, skipping falsy values; `none` when no relevant
tag is present. -/
def extractRelevantTags (props : Props) : Option (List (String × String)) :=
  let pick := fun (k : String) (v : Option String) =>
    match v with
    | some s => if s ≠ "" then some (k, s) else none
    | none => none
  let tags := List.filterMap (fun p => pick p.1 p.2)
    [("name", props.name), ("maxspeed", props.maxspeed), ("surface", props.surface),
     ("highway", props.highway), ("ref", props.ref)]
  if tags = [] then none else some tags

/-- The Point branch of `parseAndStreamFeatures` restricted to the
traffic-calming array: the traffic-calming-tag rule followed by the
speed-camera rule, pushing to the same array in program order
(extract-single.ts lines 291-301). -/
def classifyPointTC (lat lon : ℚ) (props : Props) : List (TrafficCalmingPoint ℚ) :=
  (match props.traffic_calming with
    | some t =>
      if t ≠ "" ∧ t ∈ TRAFFIC_CALMING_TYPES then
        [{ lat := lat, lon := lon, type := mapTrafficCalmingType t,
           tags := extractRelevantTags props }]
      else []
    | none => []) ++
  (if props.highway = some "speed_camera" ∨ props.enforcement = some "maxspeed" then
    [{ lat := lat, lon := lon, type := "speed_camera", tags := extractRelevantTags props }]
  else [])

/-- `Math.round(x * 1e7) / 1e7`, the 7-decimal-digit coordinate rounding of
the road-surface branch, in the exact-rational model of JavaScript numbers. -/
def jsRound7 {α : Type} [LinearOrderedField α] [FloorRing α] (x : α) : α :=
  (round (x * 10 ^ 7) : ℤ) / 10 ^ 7

/-- The road-surface branch of the LineString case of `parseAndStreamFeatures`
(extract-single.ts lines 341-354): a way with a truthy surface tag that is not
a roundabout junction yields one record with the raw surface value and
coordinates flattened to `[lon, lat, ...]`, each rounded to 7 decimals. -/
def lineSurfaceRecords {α : Type} [LinearOrderedField α] [FloorRing α]
    (props : Props) (coords : List (α × α)) : List (RoadSurfaceWay α) :=
  if truthy props.surface ∧ props.junction ≠ some "roundabout" then
    [{ surface := props.surface.getD "",
       coords := coords.foldr (fun p acc => jsRound7 p.1 :: jsRound7 p.2 :: acc) [] }]
  else []

/-- `normalizeSurfaceType`'s lookup table (earlier pipeline variant,
src/unnamed/part_000 lines 621-648), in source order. -/
def surfaceMap : List (String × String) :=
  [("asphalt", "asphalt"),
   ("concrete", "concrete"),
   ("concrete:plates", "concrete"),
   ("concrete:lanes", "concrete"),
   ("paved", "paved"),
   ("cobblestone", "cobblestone"),
   ("cobblestone:flattened", "cobblestone"),
   ("paving_stones", "cobblestone"),
   ("sett", "cobblestone"),
   ("gravel", "gravel"),
   ("fine_gravel", "gravel"),
   ("pebblestone", "gravel"),
   ("compacted", "compacted"),
   ("dirt", "dirt"),
   ("earth", "dirt"),
   ("mud", "dirt"),
   ("sand", "dirt"),
   ("grass", "grass"),
   ("grass_paver", "grass"),
   ("unpaved", "unpaved"),
   ("ground", "unpaved")]

/-- `normalizeSurfaceType` of the earlier pipeline variant: table lookup with
fallback `"unknown"` (`map[osmSurface] ?? 'unknown'`). -/
def normalizeSurfaceType (osmSurface : String) : String :=
  (surfaceMap.lookup osmSurface).getD "unknown"

/-- The normalized surface vocabulary named by the specification. -/
def surfaceVocabulary : List String :=
  ["asphalt", "concrete", "paved", "cobblestone", "gravel", "compacted",
   "dirt", "grass", "unpaved", "unknown"]

/-- `toRadians` of extract-single.ts. -/
noncomputable def toRadians (degrees : ℝ) : ℝ := degrees * Real.pi / 180

/-- `Math.atan2 y x` on the reals: the quadrant-corrected arctangent. -/
noncomputable def atan2 (y x : ℝ) : ℝ :=
  if 0 < x then Real.arctan (y / x)
  else if x < 0 then
    (if 0 ≤ y then Real.arctan (y / x) + Real.pi else Real.arctan (y / x) - Real.pi)
  else
    (if 0 < y then Real.pi / 2 else if y < 0 then -(Real.pi / 2) else 0)

/-- `haversineDistance` of extract-single.ts: great-circle distance on a
sphere of radius 6 371 000 m. -/
noncomputable def haversineDistance (lat1 lon1 lat2 lon2 : ℝ) : ℝ :=
  let R : ℝ := 6371000
  let dLat := toRadians (lat2 - lat1)
  let dLon := toRadians (lon2 - lon1)
  let a := Real.sin (dLat / 2) * Real.sin (dLat / 2) +
    Real.cos (toRadians lat1) * Real.cos (toRadians lat2) *
      Real.sin (dLon / 2) * Real.sin (dLon / 2)
  let c := 2 * atan2 (Real.sqrt a) (Real.sqrt (1 - a))
  R * c

/-- `calculateCentroid` of extract-single.ts: running sums over the vertex
list, divided by the vertex count. -/
noncomputable def calculateCentroid (coords : List (ℝ × ℝ)) : ℝ × ℝ :=
  let sums := coords.foldl (fun acc p => (acc.1 + p.1, acc.2 + p.2)) ((0 : ℝ), (0 : ℝ))
  (sums.1 / coords.length, sums.2 / coords.length)

/-- `calculateMaxRadius` of extract-single.ts: running maximum (starting at 0)
of the haversine distance from the center to each vertex. -/
noncomputable def calculateMaxRadius (coords : List (ℝ × ℝ)) (center : ℝ × ℝ) : ℝ :=
  coords.foldl (fun maxD p =>
    if maxD < haversineDistance center.2 center.1 p.2 p.1 then
      haversineDistance center.2 center.1 p.2 p.1
    else maxD) 0

/-- The roundabout branch of the LineString case of `parseAndStreamFeatures`
(extract-single.ts lines 312-318): `junction=roundabout` yields one record at
the centroid with the rounded maximum radius. -/
noncomputable def lineRoundaboutRecords (props : Props) (coords : List (ℝ × ℝ)) :
    List (RoundaboutInfo ℝ) :=
  if props.junction = some "roundabout" then
    [{ lat := (calculateCentroid coords).2, lon := (calculateCentroid coords).1,
       radius := some (round (calculateMaxRadius coords (calculateCentroid coords))),
       type := "roundabout" }]
  else []

/-- The Polygon case of `parseAndStreamFeatures` (extract-single.ts lines
358-367): the roundabout rule applied to the first ring
(`geometry.coordinates[0]`). -/
noncomputable def polygonRoundaboutRecords (props : Props)
    (rings : List (List (ℝ × ℝ))) : List (RoundaboutInfo ℝ) :=
  lineRoundaboutRecords props (rings.headD [])

/-- Values reachable from a lookup are among the table's values. -/
theorem lookup_val_mem {α β : Type} [BEq α] {l : List (α × β)} {k : α} {v : β}
    (h : l.lookup k = some v) : v ∈ l.map Prod.snd := by
  induction l with
  | nil => simp [List.lookup] at h
  | cons p rest ih =>
    obtain ⟨a, b⟩ := p
    rw [List.lookup] at h
    cases heq : (k == a) with
    | true =>
      rw [heq] at h
      simp only [Option.some.injEq] at h
      subst h
      exact List.mem_map.mpr ⟨(a, b), List.mem_cons_self _ _, rfl⟩
    | false =>
      rw [heq] at h
      rw [List.map_cons]
      exact List.mem_cons_of_mem _ (ih h)

/-- C9: the 7-decimal coordinate rounding `r(x) = Math.round(x * 1e7) / 1e7`
is idempotent in the exact-rational model of JavaScript numbers:
`r(r(x)) = r(x)` for every `x`. -/
theorem jsRound7_idempotent (x : ℚ) : jsRound7 (jsRound7 x) = jsRound7 x := by
  unfold jsRound7
  rw [div_mul_cancel₀ _ (by norm_num : (10 : ℚ) ^ 7 ≠ 0), round_intCast]

/-- C2: a Point whose `traffic_calming` value lies in the recognized set (and
which is not simultaneously a speed-camera/enforcement node) produces exactly
one `TrafficCalmingPoint`, with category `speed_bump` for the bump-family
synonyms and `dip` for `dip`/`double_dip`; a value outside the recognized set
produces no record. -/
theorem trafficCalming_classification (lat lon : ℚ) (props : Props) (t : String)
    (htc : props.traffic_calming = some t)
    (hcam : props.highway ≠ some "speed_camera")
    (henf : props.enforcement ≠ some "maxspeed") :
    (t ∈ TRAFFIC_CALMING_TYPES →
      classifyPointTC lat lon props =
        [{ lat := lat, lon := lon,
           type := if t ∈ bumpTypes then "speed_bump" else "dip",
           tags := extractRelevantTags props }]) ∧
    (t ∉ TRAFFIC_CALMING_TYPES → classifyPointTC lat lon props = []) := by
  constructor
  · intro hmem
    have ht : t ≠ "" := by rintro rfl; revert hmem; decide
    have hmap : mapTrafficCalmingType t =
        if t ∈ bumpTypes then "speed_bump" else "dip" := by
      fin_cases hmem <;> decide
    simp [classifyPointTC, htc, ht, hmem, hmap, hcam, henf]
  · intro hmem
    simp [classifyPointTC, htc, hmem, hcam, henf]

/-- C2 witness: concrete evaluation at a `traffic_calming=hump` point. -/
theorem trafficCalming_classification_witness :
    ("hump" ∈ TRAFFIC_CALMING_TYPES →
      classifyPointTC 1 2 { traffic_calming := some "hump" } =
        [{ lat := 1, lon := 2,
           type := if "hump" ∈ bumpTypes then "speed_bump" else "dip",
           tags := extractRelevantTags { traffic_calming := some "hump" } }]) ∧
    ("hump" ∉ TRAFFIC_CALMING_TYPES →
      classifyPointTC 1 2 { traffic_calming := some "hump" } = []) :=
  trafficCalming_classification 1 2 { traffic_calming := some "hump" } "hump"
    rfl (by decide) (by decide)

/-- C1 counterexample: a LineString with `surface=sett` (not a roundabout)
is emitted with the raw value `"sett"`, which is not in the normalized
vocabulary; the normalization table would have mapped it to `"cobblestone"`,
but the classifier does not apply the table. -/
theorem surface_not_normalized_counterexample :
    (lineSurfaceRecords { surface := some "sett" } [((1 : ℚ), 2)]).map
      RoadSurfaceWay.surface = ["sett"] ∧
    "sett" ∉ surfaceVocabulary ∧
    normalizeSurfaceType "sett" = "cobblestone" := by
  refine ⟨?_, by decide, by decide⟩
  simp [lineSurfaceRecords, truthy]

/-- C1 amended: the classifier stores the raw surface tag value unchanged in
the emitted record; the vocabulary table `normalizeSurfaceType` (applied only
in an earlier pipeline variant) is total onto the fixed vocabulary, mapping
every raw value outside its table to `"unknown"`. -/
theorem surface_raw_and_table_total {α : Type} [LinearOrderedField α] [FloorRing α]
    (props : Props) (s : String) (coords : List (α × α)) (t : String)
    (hs : props.surface = some s) (hne : s ≠ "")
    (hj : props.junction ≠ some "roundabout") :
    (lineSurfaceRecords props coords).map RoadSurfaceWay.surface = [s] ∧
    normalizeSurfaceType t ∈ surfaceVocabulary ∧
    (surfaceMap.lookup t = none → normalizeSurfaceType t = "unknown") := by
  refine ⟨?_, ?_, ?_⟩
  · unfold lineSurfaceRecords
    rw [if_pos ⟨by simp [truthy, hs, hne], hj⟩]
    simp [hs]
  · unfold normalizeSurfaceType
    cases h : surfaceMap.lookup t with
    | none => decide
    | some v =>
      have hv := lookup_val_mem h
      rw [Option.getD_some]
      have hall : ∀ x ∈ surfaceMap.map Prod.snd, x ∈ surfaceVocabulary := by decide
      exact hall v hv
  · intro h
    simp [normalizeSurfaceType, h]

/-- C1 amended witness: concrete evaluation at `surface=gravel` and an
unrecognized surface value. -/
theorem surface_raw_and_table_total_witness :
    (lineSurfaceRecords { surface := some "gravel" } [((1 : ℚ), 2)]).map
      RoadSurfaceWay.surface = ["gravel"] ∧
    normalizeSurfaceType "lava" ∈ surfaceVocabulary ∧
    (surfaceMap.lookup "lava" = none → normalizeSurfaceType "lava" = "unknown") :=
  surface_raw_and_table_total { surface := some "gravel" } "gravel"
    [((1 : ℚ), 2)] "lava" rfl (by decide) (by decide)

/-- C3: a LineString carrying a surface tag that is simultaneously tagged
`junction=roundabout` yields exactly one roundabout record and no road-surface
record (mutual exclusion). -/
theorem roundabout_excludes_surface {α : Type} [LinearOrderedField α] [FloorRing α]
    (props : Props) (s : String) (coordsS : List (α × α)) (coordsR : List (ℝ × ℝ))
    (hs : props.surface = some s) (hne : s ≠ "")
    (hj : props.junction = some "roundabout") :
    (lineRoundaboutRecords props coordsR).length = 1 ∧
    lineSurfaceRecords props coordsS = [] := by
  constructor
  · rw [lineRoundaboutRecords, if_pos hj]
    rfl
  · rw [lineSurfaceRecords, if_neg]
    intro h
    exact h.2 hj

/-- A computed bounding box of build-sqlite.ts. -/
structure Bbox where
  minLat : ℚ
  maxLat : ℚ
  minLon : ℚ
  maxLon : ℚ
deriving DecidableEq, Repr

/-- The pair traversal of `computeBboxFromFlatCoords`: the loop
`for (i = 0; i < coords.length - 1; i += 2)` reads `(coords[i], coords[i+1])`
as `(lon, lat)` pairs, ignoring a trailing lone element. -/
def toPairs : List ℚ → List (ℚ × ℚ)
  | lon :: lat :: rest => (lon, lat) :: toPairs rest
  | _ => []

/-- One iteration of the bbox loop against an already-initialized box: the
four comparisons `lat < minLat`, `lat > maxLat`, `lon < minLon`,
`lon > maxLon`. -/
def updateBbox (b : Bbox) (p : ℚ × ℚ) : Bbox :=
  { minLat := min b.minLat p.2, maxLat := max b.maxLat p.2,
    minLon := min b.minLon p.1, maxLon := max b.maxLon p.1 }

/-- One iteration of the bbox loop. The `±Infinity` initial accumulators of
the source are modelled as `none`: the first pair replaces them outright,
exactly as every finite value wins the comparison against `±Infinity`. -/
def bboxStep (acc : Option Bbox) (p : ℚ × ℚ) : Option Bbox :=
  match acc with
  | none => some { minLat := p.2, maxLat := p.2, minLon := p.1, maxLon := p.1 }
  | some b => some (updateBbox b p)

/-- `computeBboxFromFlatCoords` of build-sqlite.ts (lines 126-147); `none`
models the degenerate all-`±Infinity` result of an input with no complete
pair. -/
def computeBboxFromFlatCoords (coords : List ℚ) : Option Bbox :=
  (toPairs coords).foldl bboxStep none

/-- Flatten a pair list back to the `[lon, lat, ...]` shape. -/
def flattenPairs (l : List (ℚ × ℚ)) : List ℚ :=
  l.foldr (fun p acc => p.1 :: p.2 :: acc) []

/-- For even-length inputs the pair traversal covers the whole array. -/
theorem flattenPairs_toPairs : ∀ (coords : List ℚ), coords.length % 2 = 0 →
    flattenPairs (toPairs coords) = coords
  | [], _ => rfl
  | [_], h => by simp at h
  | x :: y :: rest, h => by
    rw [toPairs]
    have hrest : rest.length % 2 = 0 := by
      simp [List.length_cons, Nat.add_mod] at h
      omega
    have ih := flattenPairs_toPairs rest hrest
    simp only [flattenPairs, List.foldr_cons] at ih ⊢
    rw [ih]

/-- Fold invariant of the bbox loop: starting from an initialized box, the
run-out box bounds the initial box and every traversed pair. -/
theorem bbox_fold_bounds (l : List (ℚ × ℚ)) (b0 : Bbox) :
    ∃ b : Bbox, l.foldl bboxStep (some b0) = some b ∧
      b.minLat ≤ b0.minLat ∧ b0.maxLat ≤ b.maxLat ∧
      b.minLon ≤ b0.minLon ∧ b0.maxLon ≤ b.maxLon ∧
      ∀ p ∈ l, b.minLat ≤ p.2 ∧ p.2 ≤ b.maxLat ∧ b.minLon ≤ p.1 ∧ p.1 ≤ b.maxLon := by
  induction l generalizing b0 with
  | nil => exact ⟨b0, rfl, le_refl _, le_refl _, le_refl _, le_refl _, by simp⟩
  | cons p rest ih =>
    obtain ⟨b, hb, h1, h2, h3, h4, hall⟩ := ih (updateBbox b0 p)
    refine ⟨b, hb, ?_, ?_, ?_, ?_, ?_⟩
    · exact le_trans h1 (min_le_left _ _)
    · exact le_trans (le_max_left _ _) h2
    · exact le_trans h3 (min_le_left _ _)
    · exact le_trans (le_max_left _ _) h4
    · intro q hq
      rcases List.mem_cons.mp hq with rfl | hq

      · exact ⟨le_trans h1 (min_le_right _ _), le_trans (le_max_right _ _) h2,
          le_trans h3 (min_le_right _ _), le_trans (le_max_right _ _) h4⟩
      · exact hall q hq

/-- If every traversed pair equals `v`, the loop is stationary at the
degenerate box of `v`. -/
theorem bbox_fold_const (l : List (ℚ × ℚ)) (v : ℚ × ℚ)
    (h : ∀ p ∈ l, p = v) :
    l.foldl bboxStep
      (some { minLat := v.2, maxLat := v.2, minLon := v.1, maxLon := v.1 }) =
      some { minLat := v.2, maxLat := v.2, minLon := v.1, maxLon := v.1 } := by
  induction l with
  | nil => rfl
  | cons p rest ih =>
    have hp : p = v := h p (List.mem_cons_self _ _)
    subst hp
    rw [List.foldl_cons]
    have hstep : bboxStep
        (some { minLat := p.2, maxLat := p.2, minLon := p.1, maxLon := p.1 }) p =
        some { minLat := p.2, maxLat := p.2, minLon := p.1, maxLon := p.1 } := by
      simp [bboxStep, updateBbox]
    rw [hstep]
    exact ih (fun q hq => h q (List.mem_cons_of_mem _ hq))

/-- C8: for a flat coordinate array of even length at least 4, the computed
bounding box exists, bounds every latitude and longitude of the array (the
pair traversal covers the whole array), and collapses to a point when all
pairs are identical. -/
theorem computeBbox_bounds (coords : List ℚ)
    (heven : coords.length % 2 = 0) (hlen : 4 ≤ coords.length) :
    ∃ b : Bbox, computeBboxFromFlatCoords coords = some b ∧
      flattenPairs (toPairs coords) = coords ∧
      (∀ p ∈ toPairs coords,
        b.minLat ≤ p.2 ∧ p.2 ≤ b.maxLat ∧ b.minLon ≤ p.1 ∧ p.1 ≤ b.maxLon) ∧
      ((∀ p ∈ toPairs coords, ∀ q ∈ toPairs coords, p = q) →
        b.minLat = b.maxLat ∧ b.minLon = b.maxLon) := by
  match coords, hlen with
  | x :: y :: rest, _ =>
    have hrest : rest.length % 2 = 0 := by
      simp [List.length_cons, Nat.add_mod] at heven
      omega
    obtain ⟨b, hb, h1, h2, h3, h4, hall⟩ :=
      bbox_fold_bounds (toPairs rest)
        { minLat := y, maxLat := y, minLon := x, maxLon := x }
    have hcompute : computeBboxFromFlatCoords (x :: y :: rest) = some b := by
      rw [computeBboxFromFlatCoords, toPairs, List.foldl_cons]
      exact hb
    refine ⟨b, hcompute, flattenPairs_toPairs _ heven, ?_, ?_⟩
    · intro p hp
      rw [toPairs] at hp
      rcases List.mem_cons.mp hp with rfl | hp
      · exact ⟨h1, h2, h3, h4⟩
      · exact hall p hp
    · intro hconst
      have hxy : ∀ p ∈ toPairs rest, p = (x, y) := by
        intro p hp
        exact hconst p (by rw [toPairs]; exact List.mem_cons_of_mem _ hp)
          (x, y) (by rw [toPairs]; exact List.mem_cons_self _ _)
      have hc := bbox_fold_const (toPairs rest) (x, y) hxy
      rw [hc] at hb
      obtain rfl := Option.some.injEq _ _ ▸ hb
      constructor <;> rfl

/-- C8 witness: concrete evaluation at the flat array `[1, 2, 3, 4]`. -/
theorem computeBbox_bounds_witness :
    ∃ b : Bbox, computeBboxFromFlatCoords [1, 2, 3, 4] = some b ∧
      flattenPairs (toPairs [1, 2, 3, 4]) = [1, 2, 3, 4] ∧
      (∀ p ∈ toPairs [1, 2, 3, 4],
        b.minLat ≤ p.2 ∧ p.2 ≤ b.maxLat ∧ b.minLon ≤ p.1 ∧ p.1 ≤ b.maxLon) ∧
      ((∀ p ∈ toPairs [1, 2, 3, 4], ∀ q ∈ toPairs [1, 2, 3, 4], p = q) →
        b.minLat = b.maxLat ∧ b.minLon = b.maxLon) :=
  computeBbox_bounds [1, 2, 3, 4] (by decide) (by decide)

/-- C3 witness: concrete evaluation at `surface=asphalt, junction=roundabout`. -/
theorem roundabout_excludes_surface_witness :
    (lineRoundaboutRecords { surface := some "asphalt", junction := some "roundabout" }
      [((0 : ℝ), 0), (0, 1)]).length = 1 ∧
    lineSurfaceRecords { surface := some "asphalt", junction := some "roundabout" }
      [((1 : ℚ), 2)] = [] :=
  roundabout_excludes_surface
    { surface := some "asphalt", junction := some "roundabout" } "asphalt"
    [((1 : ℚ), 2)] [((0 : ℝ), 0), (0, 1)] rfl (by decide) rfl

/-! ## Relational loader (build-sqlite.ts) -/

/-- The core bundle document `{version, region, trafficCalming, roundabouts}`. -/
structure CoreBundle where
  version : String
  region : String
  trafficCalming : List (TrafficCalmingPoint ℚ)
  roundabouts : List (RoundaboutInfo ℚ)
deriving DecidableEq, Repr

/-- The loader's input world: whether the core file exists, its parsed
contents, the optional heavy bundles (`none` = file absent), whether previous
outputs exist, and the wall-clock timestamp used for `createdAt`. -/
structure LoaderEnv where
  coreExists : Bool
  core : CoreBundle
  surfaces : Option (List (RoadSurfaceWay ℚ))
  ways : Option (List (RoadWayRec ℚ))
  prevSqliteExists : Bool
  prevGzExists : Bool
  now : String
deriving DecidableEq, Repr

/-- A `traffic_calming` table row. -/
structure TrafficCalmingRow where
  lat : ℚ
  lon : ℚ
  type : String
  endLat : Option ℚ
  endLon : Option ℚ
  wayId : Option ℤ
  tags : Option (List (String × String))
deriving DecidableEq, Repr

/-- A `roundabouts` table row. -/
structure RoundaboutRow where
  lat : ℚ
  lon : ℚ
  radius : Option ℤ
  type : String
deriving DecidableEq, Repr

/-- A `road_surfaces` table row (bbox `none` for a record with no complete
coordinate pair, the degenerate `±Infinity` case). -/
structure SurfaceRow where
  surface : String
  coords : List ℚ
  bbox : Option Bbox
deriving DecidableEq, Repr

/-- A `road_ways` table row. -/
structure WayRow where
  highway : String
  coords : List ℚ
  bbox : Option Bbox
deriving DecidableEq, Repr

/-- The durable contents of the SQLite store. -/
structure StoreState where
  trafficCalmingRows : List TrafficCalmingRow := []
  roundaboutRows : List RoundaboutRow := []
  surfaceRows : List SurfaceRow := []
  wayRows : List WayRow := []
  metadataRows : List (String × String) := []
deriving DecidableEq, Repr

/-- The store with no committed rows. -/
def emptyStore : StoreState := {}

/-- The sequential steps of `buildSqlite` at which an exception can arise. -/
inductive LoadStep
  | metaRead
  | tcLoad
  | raLoad
  | surfaceLoad
  | wayLoad
  | metaWrite
  | commit
  | compress
deriving DecidableEq, Repr

/-- The observable result of one `buildSqlite` run: process success, which
artifact files remain on disk, whether the transaction committed, and the
durable (post-rollback) store contents. -/
structure LoaderOutcome where
  success : Bool
  sqliteExists : Bool
  sqliteGzExists : Bool
  committed : Bool
  store : StoreState
deriving DecidableEq, Repr

/-- `insertTC.run` of build-sqlite.ts. -/
def mkTrafficCalmingRow (tc : TrafficCalmingPoint ℚ) : TrafficCalmingRow :=
  { lat := tc.lat, lon := tc.lon, type := tc.type, endLat := tc.endLat,
    endLon := tc.endLon, wayId := tc.wayId, tags := tc.tags }

/-- `insertRA.run` of build-sqlite.ts. -/
def mkRoundaboutRow (ra : RoundaboutInfo ℚ) : RoundaboutRow :=
  { lat := ra.lat, lon := ra.lon, radius := ra.radius, type := ra.type }

/-- `insertSurface.run` of build-sqlite.ts: bbox computed from the flat
coordinates. -/
def mkSurfaceRow (rs : RoadSurfaceWay ℚ) : SurfaceRow :=
  { surface := rs.surface, coords := rs.coords,
    bbox := computeBboxFromFlatCoords rs.coords }

/-- `insertWay.run` of build-sqlite.ts. -/
def mkWayRow (rw : RoadWayRec ℚ) : WayRow :=
  { highway := rw.highway, coords := rw.coords,
    bbox := computeBboxFromFlatCoords rw.coords }

/-- The `metadata` table rows written by build-sqlite.ts (lines 349-354). -/
def metadataOf (env : LoaderEnv) : List (String × String) :=
  [("version", env.core.version),
   ("region", env.core.region),
   ("createdAt", env.now),
   ("hasSurfaceData", if 0 < (env.surfaces.getD []).length then "true" else "false"),
   ("hasWayData", if 0 < (env.ways.getD []).length then "true" else "false")]

/-- `buildSqlite` of build-sqlite.ts (lines 235-378), as a function of the
input world and an optional injected failure step. Execution order follows
the source: core-file existence check (throw before touching disk), removal
of previous outputs, creation of the uncompressed store, schema + `BEGIN`,
metadata read, the four streaming insert phases (the surface/way phases run
only when the corresponding file exists), metadata insert, `COMMIT`, gzip
compression (`-k` keeps the original), and removal of the uncompressed store.
An exception at any step reaches only the CLI `.catch` handler (lines
396-399), which logs and exits: it deletes nothing, so the freshly created
uncompressed store file remains; the uncommitted transaction's rows are
rolled back by SQLite journaling, leaving the durable store empty. -/
def runBuildSqlite (env : LoaderEnv) (failAt : Option LoadStep) : LoaderOutcome :=
  if env.coreExists = false then
    { success := false, sqliteExists := env.prevSqliteExists,
      sqliteGzExists := env.prevGzExists, committed := false, store := emptyStore }
  else
    let abort : LoaderOutcome :=
      { success := false, sqliteExists := true, sqliteGzExists := false,
        committed := false, store := emptyStore }
    if failAt = some LoadStep.metaRead then abort
    else if failAt = some LoadStep.tcLoad then abort
    else if failAt = some LoadStep.raLoad then abort
    else if env.surfaces.isSome ∧ failAt = some LoadStep.surfaceLoad then abort
    else if env.ways.isSome ∧ failAt = some LoadStep.wayLoad then abort
    else if failAt = some LoadStep.metaWrite then abort
    else if failAt = some LoadStep.commit then abort
    else
      let fullStore : StoreState :=
        { trafficCalmingRows := env.core.trafficCalming.map mkTrafficCalmingRow,
          roundaboutRows := env.core.roundabouts.map mkRoundaboutRow,
          surfaceRows := (env.surfaces.getD []).map mkSurfaceRow,
          wayRows := (env.ways.getD []).map mkWayRow,
          metadataRows := metadataOf env }
      if failAt = some LoadStep.compress then
        { success := false, sqliteExists := true, sqliteGzExists := false,
          committed := true, store := fullStore }
      else
        { success := true, sqliteExists := false, sqliteGzExists := true,
          committed := true, store := fullStore }

/-- Number of road-surface records the loader inserts. -/
def insertedSurfaceCount (env : LoaderEnv) : ℕ := (env.surfaces.getD []).length

/-- Number of road-way records the loader inserts. -/
def insertedWayCount (env : LoaderEnv) : ℕ := (env.ways.getD []).length

/-- A concrete loader input: core file present (empty bundle), surface file
present with one record, way file absent. -/
def loaderEnvA : LoaderEnv :=
  { coreExists := true,
    core := { version := "2024-01-01", region := "r", trafficCalming := [], roundabouts := [] },
    surfaces := some [{ surface := "asphalt", coords := [1, 2] }],
    ways := none,
    prevSqliteExists := false,
    prevGzExists := false,
    now := "t" }

/-- C4 counterexample: a failure while streaming surface data (a step before
`COMMIT`) leaves the freshly created uncompressed SQLite artifact on disk —
the run fails, yet `sqliteExists` is still true, contradicting the claim that
the artifact is deleted on any pre-commit failure. -/
theorem abort_keeps_sqlite_counterexample :
    (runBuildSqlite loaderEnvA (some LoadStep.surfaceLoad)).success = false ∧
    (runBuildSqlite loaderEnvA (some LoadStep.surfaceLoad)).committed = false ∧
    (runBuildSqlite loaderEnvA (some LoadStep.surfaceLoad)).sqliteExists = true := by
  refine ⟨rfl, rfl, rfl⟩

/-- C4 amended: all inserts happen inside one transaction begun before any
insert and committed after metadata; a failure at any executed step before
the compression phase leaves no committed rows in the durable store, but does
NOT delete the freshly created uncompressed artifact (it remains on disk
until a later run's pre-cleanup); on success the loader compresses the store
and removes the uncompressed intermediate. -/
theorem loader_transaction_and_cleanup (env : LoaderEnv) (s : LoadStep)
    (hcore : env.coreExists = true)
    (hsurf : s = LoadStep.surfaceLoad → env.surfaces.isSome)
    (hway : s = LoadStep.wayLoad → env.ways.isSome)
    (hs : s ≠ LoadStep.compress) :
    ((runBuildSqlite env (some s)).success = false ∧
     (runBuildSqlite env (some s)).committed = false ∧
     (runBuildSqlite env (some s)).store = emptyStore ∧
     (runBuildSqlite env (some s)).sqliteExists = true) ∧
    ((runBuildSqlite env none).success = true ∧
     (runBuildSqlite env none).committed = true ∧
     (runBuildSqlite env none).sqliteExists = false ∧
     (runBuildSqlite env none).sqliteGzExists = true) := by
  cases s with
  | surfaceLoad =>
    have h1 := hsurf rfl
    constructor
    · simp [runBuildSqlite, hcore, h1]
    · simp [runBuildSqlite, hcore]
  | wayLoad =>
    have h1 := hway rfl
    constructor
    · simp [runBuildSqlite, hcore, h1]
    · simp [runBuildSqlite, hcore]
  | compress => exact absurd rfl hs
  | metaRead => exact ⟨by simp [runBuildSqlite, hcore], by simp [runBuildSqlite, hcore]⟩
  | tcLoad => exact ⟨by simp [runBuildSqlite, hcore], by simp [runBuildSqlite, hcore]⟩
  | raLoad => exact ⟨by simp [runBuildSqlite, hcore], by simp [runBuildSqlite, hcore]⟩
  | metaWrite => exact ⟨by simp [runBuildSqlite, hcore], by simp [runBuildSqlite, hcore]⟩
  | commit => exact ⟨by simp [runBuildSqlite, hcore], by simp [runBuildSqlite, hcore]⟩

/-- C4 witness: concrete evaluation with a failure injected at the
traffic-calming insert phase. -/
theorem loader_transaction_and_cleanup_witness :
    ((runBuildSqlite loaderEnvA (some LoadStep.tcLoad)).success = false ∧
     (runBuildSqlite loaderEnvA (some LoadStep.tcLoad)).committed = false ∧
     (runBuildSqlite loaderEnvA (some LoadStep.tcLoad)).store = emptyStore ∧
     (runBuildSqlite loaderEnvA (some LoadStep.tcLoad)).sqliteExists = true) ∧
    ((runBuildSqlite loaderEnvA none).success = true ∧
     (runBuildSqlite loaderEnvA none).committed = true ∧
     (runBuildSqlite loaderEnvA none).sqliteExists = false ∧
     (runBuildSqlite loaderEnvA none).sqliteGzExists = true) :=
  loader_transaction_and_cleanup loaderEnvA LoadStep.tcLoad rfl
    (by intro h; cases h) (by intro h; cases h) (by intro h; cases h)

/-- C5: with only the core bundle present (no surface and no way bundle), the
loader completes successfully, both heavy tables stay empty, and the metadata
rows record `hasSurfaceData='false'` and `hasWayData='false'`. -/
theorem loader_core_only (env : LoaderEnv) (hcore : env.coreExists = true)
    (hsurf : env.surfaces = none) (hway : env.ways = none) :
    (runBuildSqlite env none).success = true ∧
    (runBuildSqlite env none).store.surfaceRows = [] ∧
    (runBuildSqlite env none).store.wayRows = [] ∧
    (runBuildSqlite env none).store.metadataRows.lookup "hasSurfaceData" = some "false" ∧
    (runBuildSqlite env none).store.metadataRows.lookup "hasWayData" = some "false" := by
  simp [runBuildSqlite, hcore, hsurf, hway, metadataOf, List.lookup]

/-- C5 witness: concrete evaluation with both heavy bundles absent. -/
theorem loader_core_only_witness :
    (runBuildSqlite { loaderEnvA with surfaces := none } none).success = true ∧
    (runBuildSqlite { loaderEnvA with surfaces := none } none).store.surfaceRows = [] ∧
    (runBuildSqlite { loaderEnvA with surfaces := none } none).store.wayRows = [] ∧
    (runBuildSqlite { loaderEnvA with surfaces := none } none).store.metadataRows.lookup
      "hasSurfaceData" = some "false" ∧
    (runBuildSqlite { loaderEnvA with surfaces := none } none).store.metadataRows.lookup
      "hasWayData" = some "false" :=
  loader_core_only { loaderEnvA with surfaces := none } rfl rfl rfl

/-- C10: the loader's presence flags reflect the inserted record count, not
file presence: the successful run writes `hasSurfaceData`/`hasWayData` as
`'true'` exactly when at least one record of that category was inserted, so a
present-but-empty heavy bundle records `'false'`. -/
theorem loader_flags_reflect_counts (env : LoaderEnv) (hcore : env.coreExists = true) :
    (runBuildSqlite env none).success = true ∧
    (runBuildSqlite env none).store.metadataRows.lookup "hasSurfaceData" =
      some (if 0 < insertedSurfaceCount env then "true" else "false") ∧
    (runBuildSqlite env none).store.metadataRows.lookup "hasWayData" =
      some (if 0 < insertedWayCount env then "true" else "false") ∧
    (env.surfaces = some [] →
      (runBuildSqlite env none).store.metadataRows.lookup "hasSurfaceData" = some "false") ∧
    (env.ways = some [] →
      (runBuildSqlite env none).store.metadataRows.lookup "hasWayData" = some "false") := by
  have hmain : (runBuildSqlite env none).store.metadataRows = metadataOf env := by
    simp [runBuildSqlite, hcore]
  refine ⟨by simp [runBuildSqlite, hcore], ?_, ?_, ?_, ?_⟩
  · rw [hmain]
    simp [metadataOf, List.lookup, insertedSurfaceCount]
  · rw [hmain]
    simp [metadataOf, List.lookup, insertedWayCount]
  · intro h
    rw [hmain]
    simp [metadataOf, List.lookup, h]
  · intro h
    rw [hmain]
    simp [metadataOf, List.lookup, h]

/-- C10 witness: concrete evaluation with a present-but-empty surface bundle. -/
theorem loader_flags_reflect_counts_witness :
    (runBuildSqlite { loaderEnvA with surfaces := some [] } none).success = true ∧
    (runBuildSqlite { loaderEnvA with surfaces := some [] } none).store.metadataRows.lookup
      "hasSurfaceData" =
      some (if 0 < insertedSurfaceCount { loaderEnvA with surfaces := some [] }
        then "true" else "false") ∧
    (runBuildSqlite { loaderEnvA with surfaces := some [] } none).store.metadataRows.lookup
      "hasWayData" =
      some (if 0 < insertedWayCount { loaderEnvA with surfaces := some [] }
        then "true" else "false") ∧
    (({ loaderEnvA with surfaces := some [] } : LoaderEnv).surfaces = some [] →
      (runBuildSqlite { loaderEnvA with surfaces := some [] } none).store.metadataRows.lookup
        "hasSurfaceData" = some "false") ∧
    (({ loaderEnvA with surfaces := some [] } : LoaderEnv).ways = some [] →
      (runBuildSqlite { loaderEnvA with surfaces := some [] } none).store.metadataRows.lookup
        "hasWayData" = some "false") :=
  loader_flags_reflect_counts { loaderEnvA with surfaces := some [] } rfl

/-! ## C7: roundabout centroid and radius -/

/-- The running-sum loop of `calculateCentroid` computes the component sums. -/
theorem foldl_pairSum (l : List (ℝ × ℝ)) (a b : ℝ) :
    l.foldl (fun acc p => (acc.1 + p.1, acc.2 + p.2)) (a, b) =
      (a + (l.map Prod.fst).sum, b + (l.map Prod.snd).sum) := by
  induction l generalizing a b with
  | nil => simp
  | cons p rest ih =>
    rw [List.foldl_cons, ih]
    simp only [List.map_cons, List.sum_cons, Prod.mk.injEq]
    exact ⟨by ring, by ring⟩

/-- The running-maximum loop (`if m < f p then f p else m`, starting at `a`)
dominates its start value, is attained at the start or at some element, and
dominates every element's value. -/
theorem foldl_runningMax_spec (f : ℝ × ℝ → ℝ) (l : List (ℝ × ℝ)) (a : ℝ) :
    a ≤ l.foldl (fun m p => if m < f p then f p else m) a ∧
    (l.foldl (fun m p => if m < f p then f p else m) a = a ∨
      ∃ p ∈ l, l.foldl (fun m p => if m < f p then f p else m) a = f p) ∧
    ∀ p ∈ l, f p ≤ l.foldl (fun m p => if m < f p then f p else m) a := by
  induction l generalizing a with
  | nil => exact ⟨le_refl _, Or.inl rfl, by simp⟩
  | cons q rest ih =>
    rw [List.foldl_cons]
    obtain ⟨ih1, ih2, ih3⟩ := ih (if a < f q then f q else a)
    have h0 : a ≤ (if a < f q then f q else a) := by
      by_cases hc : a < f q
      · rw [if_pos hc]; exact hc.le
      · rw [if_neg hc]
    have hq0 : f q ≤ (if a < f q then f q else a) := by
      by_cases hc : a < f q
      · rw [if_pos hc]
      · rw [if_neg hc]; exact not_lt.mp hc
    refine ⟨le_trans h0 ih1, ?_, ?_⟩
    · rcases ih2 with h | ⟨p, hp, hfp⟩
      · by_cases hc : a < f q
        · right
          refine ⟨q, List.mem_cons_self _ _, ?_⟩
          rw [h, if_pos hc]
        · left
          rw [h, if_neg hc]
      · right
        exact ⟨p, List.mem_cons_of_mem _ hp, hfp⟩
    · intro p hp
      rcases List.mem_cons.mp hp with rfl | hp
      · exact le_trans hq0 ih1
      · exact ih3 p hp

/-- `atan2` is nonnegative on nonnegative arguments. -/
theorem atan2_nonneg (y x : ℝ) (hy : 0 ≤ y) (hx : 0 ≤ x) : 0 ≤ atan2 y x := by
  unfold atan2
  by_cases h1 : 0 < x
  · rw [if_pos h1]
    have hdiv : (0 : ℝ) ≤ y / x := div_nonneg hy h1.le
    have := Real.arctan_strictMono.monotone hdiv
    rwa [Real.arctan_zero] at this
  · rw [if_neg h1, if_neg (not_lt.mpr hx)]
    by_cases h2 : 0 < y
    · rw [if_pos h2]
      exact le_of_lt (by positivity)
    · rw [if_neg h2, if_neg (not_lt.mpr hy)]

/-- The haversine distance of the embedding is nonnegative. -/
theorem haversineDistance_nonneg (lat1 lon1 lat2 lon2 : ℝ) :
    0 ≤ haversineDistance lat1 lon1 lat2 lon2 := by
  unfold haversineDistance
  dsimp only
  have h := atan2_nonneg
    (Real.sqrt (Real.sin (toRadians (lat2 - lat1) / 2) * Real.sin (toRadians (lat2 - lat1) / 2) +
      Real.cos (toRadians lat1) * Real.cos (toRadians lat2) *
        Real.sin (toRadians (lon2 - lon1) / 2) * Real.sin (toRadians (lon2 - lon1) / 2)))
    (Real.sqrt (1 - (Real.sin (toRadians (lat2 - lat1) / 2) * Real.sin (toRadians (lat2 - lat1) / 2) +
      Real.cos (toRadians lat1) * Real.cos (toRadians lat2) *
        Real.sin (toRadians (lon2 - lon1) / 2) * Real.sin (toRadians (lon2 - lon1) / 2))))
    (Real.sqrt_nonneg _) (Real.sqrt_nonneg _)
  have h2 : (0 : ℝ) ≤ 2 * atan2 _ _ := mul_nonneg (by norm_num) h
  exact mul_nonneg (by norm_num) h2

/-- `calculateCentroid` computes the unweighted arithmetic mean of the vertex
coordinates. -/
theorem calculateCentroid_spec (coords : List (ℝ × ℝ)) :
    calculateCentroid coords =
      ((coords.map Prod.fst).sum / coords.length,
       (coords.map Prod.snd).sum / coords.length) := by
  unfold calculateCentroid
  rw [foldl_pairSum]
  simp

/-- `calculateMaxRadius` over a nonempty vertex list is attained at a vertex
and dominates the distance to every vertex. -/
theorem calculateMaxRadius_spec (coords : List (ℝ × ℝ)) (center : ℝ × ℝ)
    (hne : coords ≠ []) :
    (∃ p ∈ coords, calculateMaxRadius coords center =
      haversineDistance center.2 center.1 p.2 p.1) ∧
    ∀ p ∈ coords, haversineDistance center.2 center.1 p.2 p.1 ≤
      calculateMaxRadius coords center := by
  obtain ⟨h1, h2, h3⟩ := foldl_runningMax_spec
    (fun p => haversineDistance center.2 center.1 p.2 p.1) coords 0
  constructor
  · rcases h2 with h | ⟨p, hp, hfp⟩
    · obtain ⟨p, hp⟩ := List.exists_mem_of_ne_nil coords hne
      refine ⟨p, hp, ?_⟩
      have hd := h3 p hp
      have hnn := haversineDistance_nonneg center.2 center.1 p.2 p.1
      have hmr : calculateMaxRadius coords center = 0 := h
      rw [hmr]
      have hd0 : haversineDistance center.2 center.1 p.2 p.1 ≤ 0 := hmr ▸ hd
      linarith
    · exact ⟨p, hp, hfp⟩
  · exact h3

/-- C7: a `junction=roundabout` LineString (or closed Polygon, via its first
ring) yields exactly one roundabout record whose center is the unweighted
arithmetic mean of the vertex longitudes/latitudes and whose radius is the
maximum haversine distance (Earth radius 6 371 000 m) from that center to any
vertex, rounded to the nearest meter (`Math.round r = ⌊r + 1/2⌋`). -/
theorem roundabout_centroid_radius (props : Props) (coords : List (ℝ × ℝ))
    (hj : props.junction = some "roundabout") (hne : coords ≠ []) :
    ∃ ra : RoundaboutInfo ℝ,
      lineRoundaboutRecords props coords = [ra] ∧
      ra.type = "roundabout" ∧
      ra.lon = (coords.map Prod.fst).sum / coords.length ∧
      ra.lat = (coords.map Prod.snd).sum / coords.length ∧
      (∃ rad : ℝ, ra.radius = some (round rad) ∧
        (∃ p ∈ coords, rad = haversineDistance ra.lat ra.lon p.2 p.1) ∧
        ∀ p ∈ coords, haversineDistance ra.lat ra.lon p.2 p.1 ≤ rad) ∧
      ∀ rest, polygonRoundaboutRecords props (coords :: rest) =
        lineRoundaboutRecords props coords := by
  have hc := calculateCentroid_spec coords
  refine ⟨RoundaboutInfo.mk (calculateCentroid coords).2 (calculateCentroid coords).1
    (some (round (calculateMaxRadius coords (calculateCentroid coords))))
    "roundabout", ?_, rfl, ?_, ?_, ?_, ?_⟩
  · rw [lineRoundaboutRecords, if_pos hj]
  · rw [hc]
  · rw [hc]
  · obtain ⟨hex, hub⟩ := calculateMaxRadius_spec coords (calculateCentroid coords) hne
    exact ⟨calculateMaxRadius coords (calculateCentroid coords), rfl, hex, hub⟩
  · intro rest
    rfl

/-- C7 witness: concrete evaluation at a one-vertex roundabout way. -/
theorem roundabout_centroid_radius_witness :
    ∃ ra : RoundaboutInfo ℝ,
      lineRoundaboutRecords { junction := some "roundabout" } [((0 : ℝ), 0)] = [ra] ∧
      ra.type = "roundabout" ∧
      ra.lon = (([((0 : ℝ), 0)]).map Prod.fst).sum / ([((0 : ℝ), 0)]).length ∧
      ra.lat = (([((0 : ℝ), 0)]).map Prod.snd).sum / ([((0 : ℝ), 0)]).length ∧
      (∃ rad : ℝ, ra.radius = some (round rad) ∧
        (∃ p ∈ [((0 : ℝ), 0)], rad = haversineDistance ra.lat ra.lon p.2 p.1) ∧
        ∀ p ∈ [((0 : ℝ), 0)], haversineDistance ra.lat ra.lon p.2 p.1 ≤ rad) ∧
      ∀ rest, polygonRoundaboutRecords { junction := some "roundabout" } ([((0 : ℝ), 0)] :: rest) =
        lineRoundaboutRecords { junction := some "roundabout" } [((0 : ℝ), 0)] :=
  roundabout_centroid_radius { junction := some "roundabout" } [((0 : ℝ), 0)]
    rfl (by simp)

/-! ## C6: the scratch-sink spill format

The scratch sink's byte contents are modelled as `List Char`. The entry
serialization mirrors `JSON.stringify({surface, coords})` for the spilled
records in the exact-rational number model: coordinates are values `k / 10^7`
(the classifier rounds to 7 decimals before spilling) printed in canonical
decimal notation. A recursive-descent parser for the wrapped
`[` … `]` document recovers the record list. -/

/-- The decimal digit characters. -/
def digitChar : ℕ → Char
  | 0 => '0'
  | 1 => '1'
  | 2 => '2'
  | 3 => '3'
  | 4 => '4'
  | 5 => '5'
  | 6 => '6'
  | 7 => '7'
  | 8 => '8'
  | _ => '9'

/-- Value of a decimal digit character. -/
def digitVal (c : Char) : ℕ := c.toNat - 48

/-- Big-endian decimal digits of a natural number (empty for 0). -/
def natDigitsBE (n : ℕ) : List ℕ := (Nat.digits 10 n).reverse

/-- Big-endian decimal digits with the 0 special case. -/
def dsOf (n : ℕ) : List ℕ := if n = 0 then [0] else natDigitsBE n

/-- Decimal rendering of a natural number. -/
def natChars (n : ℕ) : List Char := (dsOf n).map digitChar

/-- Value of a big-endian digit list. -/
def digitsVal (ds : List ℕ) : ℕ := ds.foldl (fun a d => 10 * a + d) 0

/-- The displayed fraction digits of a 7-decimal fraction numerator
`F < 10^7`: the 7-digit zero-padded expansion with trailing zeros removed
(pad the little-endian digits high, drop the low-order zeros, reverse). -/
def fracDigitsBE (F : ℕ) : List ℕ :=
  (((Nat.digits 10 F) ++ List.replicate (7 - (Nat.digits 10 F).length) 0).dropWhile
    (fun d => d == 0)).reverse

/-- Canonical decimal rendering of the number `k / 10^7`: optional sign,
integer part, and fraction part present only when nonzero. -/
def renderScaled (k : ℤ) : List Char :=
  (if k < 0 then ['-'] else []) ++ natChars (k.natAbs / 10 ^ 7) ++
    (if k.natAbs % 10 ^ 7 = 0 then []
     else '.' :: (fracDigitsBE (k.natAbs % 10 ^ 7)).map digitChar)

/-- Rendering of one rounded coordinate `q` (a rational with denominator
dividing `10^7`): the decimal form of its scaled numerator. -/
def renderQ7c (q : ℚ) : List Char := renderScaled (q * 10 ^ 7).num

/-- Join serialized chunks with the `,` separator. -/
def joinComma : List (List Char) → List Char
  | [] => []
  | [x] => x
  | x :: xs => x ++ ',' :: joinComma xs

/-- The chunks after the first, each preceded by a `,`. -/
def commaTail : List (List Char) → List Char
  | [] => []
  | x :: xs => ',' :: (x ++ commaTail xs)

/-- `\x7b"surface":"`, the opening of one spilled entry. -/
def entryOpen : List Char := ("\x7b\"surface\":\"").data

/-- `","coords":[`, between the surface value and the coordinates. -/
def entryMid2 : List Char := (",\"coords\":[").data

/-- `]\x7d`, the closing of one spilled entry. -/
def entryClose : List Char := ("]\x7d").data

/-- `JSON.stringify({surface: …, coords: […]})` for one spilled record. -/
def serializeSurfaceEntry (r : RoadSurfaceWay ℚ) : List Char :=
  entryOpen ++ r.surface.data ++ '\"' :: entryMid2 ++
    joinComma (r.coords.map renderQ7c) ++ entryClose

/-- The spill loop of `parseAndStreamFeatures` (extract-single.ts lines
350-353): serialize each record, writing a `,` before every entry except the
first (`if (roadSurfaceCount > 0) rsStream.write(',')`), and count. The
result is the sink's final contents. -/
def spillSink (records : List (RoadSurfaceWay ℚ)) : List Char :=
  (records.foldl (fun acc r =>
      (acc.1 ++ (if 0 < acc.2 then [','] else []) ++ serializeSurfaceEntry r,
        acc.2 + 1))
    (([] : List Char), (0 : ℕ))).1

/-- Scan a maximal run of digit characters. -/
def takeDigits : List Char → List ℕ × List Char
  | [] => ([], [])
  | c :: cs =>
    if c.isDigit then
      ((digitVal c) :: (takeDigits cs).1, (takeDigits cs).2)
    else ([], c :: cs)

/-- Scan up to and over the closing quote of a string literal. -/
def takeUntilQuote : List Char → Option (List Char × List Char)
  | [] => none
  | c :: cs =>
    if c = '\"' then some ([], cs)
    else
      match takeUntilQuote cs with
      | some (s, r) => some (c :: s, r)
      | none => none

/-- Consume an expected literal character sequence. -/
def expectChars : List Char → List Char → Option (List Char)
  | [], cs => some cs
  | _ :: _, [] => none
  | p :: ps, c :: cs => if c = p then expectChars ps cs else none

/-- The signed scaled value `±(I·10^7 + F·10^(7-flen))` of a parsed decimal. -/
def scaledOf (neg : Bool) (I F flen : ℕ) : ℤ :=
  let m : ℤ := (I : ℤ) * 10 ^ 7 + (F : ℤ) * 10 ^ (7 - flen)
  if neg then -m else m

/-- The rational `k / 10^7`. -/
def qOfScaled (k : ℤ) : ℚ := (k : ℚ) / 10 ^ 7

/-- Parse the body of a decimal number (integer digits, optional fraction of
at most 7 digits) into its `k / 10^7` value. -/
def parseNumCore (cs : List Char) (neg : Bool) : Option (ℚ × List Char) :=
  let p := takeDigits cs
  if p.1 = [] then none
  else
    match p.2 with
    | [] => some (qOfScaled (scaledOf neg (digitsVal p.1) 0 0), [])
    | c :: r2 =>
      if c = '.' then
        let pf := takeDigits r2
        if pf.1 = [] ∨ 7 < pf.1.length then none
        else some (qOfScaled (scaledOf neg (digitsVal p.1) (digitsVal pf.1) pf.1.length), pf.2)
      else some (qOfScaled (scaledOf neg (digitsVal p.1) 0 0), c :: r2)

/-- Parse a decimal number with optional leading sign. -/
def parseNumber (cs : List Char) : Option (ℚ × List Char) :=
  match cs with
  | [] => none
  | c :: rest => if c = '-' then parseNumCore rest true else parseNumCore (c :: rest) false

/-- Parse a nonempty comma-separated number list. -/
def parseNumList (fuel : ℕ) (cs : List Char) : Option (List ℚ × List Char) :=
  match fuel with
  | 0 => none
  | fuel + 1 =>
    match parseNumber cs with
    | none => none
    | some (q, rest) =>
      match rest with
      | [] => some ([q], [])
      | c :: rest2 =>
        if c = ',' then
          match parseNumList fuel rest2 with
          | some (qs, r3) => some (q :: qs, r3)
          | none => none
        else some ([q], c :: rest2)

/-- Parse a (possibly empty) number list up to and over the closing `]`. -/
def parseCoords (fuel : ℕ) (cs : List Char) : Option (List ℚ × List Char) :=
  match cs with
  | [] => none
  | c :: rest =>
    if c = ']' then some ([], rest)
    else
      match parseNumList fuel (c :: rest) with
      | some (qs, r) =>
        match r with
        | [] => none
        | c2 :: rest2 => if c2 = ']' then some (qs, rest2) else none
      | none => none

/-- Parse one spilled entry. -/
def parseEntry (cs : List Char) : Option (RoadSurfaceWay ℚ × List Char) :=
  match expectChars entryOpen cs with
  | none => none
  | some r1 =>
    match takeUntilQuote r1 with
    | none => none
    | some (surfChars, r2) =>
      match expectChars entryMid2 r2 with
      | none => none
      | some r3 =>
        match parseCoords (cs.length + 1) r3 with
        | none => none
        | some (qs, r4) =>
          match expectChars ['\x7d'] r4 with
          | none => none
          | some r5 => some ({ surface := String.mk surfChars, coords := qs }, r5)

/-- Parse a nonempty comma-separated entry list. -/
def parseEntryList (fuel : ℕ) (cs : List Char) :
    Option (List (RoadSurfaceWay ℚ) × List Char) :=
  match fuel with
  | 0 => none
  | fuel + 1 =>
    match parseEntry cs with
    | none => none
    | some (r, rest) =>
      match rest with
      | [] => some ([r], [])
      | c :: rest2 =>
        if c = ',' then
          match parseEntryList fuel rest2 with
          | some (rs, r3) => some (r :: rs, r3)
          | none => none
        else some ([r], c :: rest2)

/-- Parse the wrapped `[` … `]` JSON array of spilled road-surface records. -/
def parseSurfaceArray (cs : List Char) : Option (List (RoadSurfaceWay ℚ)) :=
  match cs with
  | [] => none
  | c :: rest =>
    if c = '[' then
      if rest = [']'] then some []
      else
        match parseEntryList (rest.length + 1) rest with
        | some (records, out) => if out = [']'] then some records else none
        | none => none
    else none

/-- A list of characters whose head, if any, is not a digit. -/
def headNotDigit : List Char → Prop
  | [] => True
  | c :: _ => c.isDigit = false

/-- A list of characters whose head, if any, is neither a digit nor `.`
(the shapes that can follow a complete rendered number). -/
def goodFollow : List Char → Prop
  | [] => True
  | c :: _ => c.isDigit = false ∧ c ≠ '.'

theorem goodFollow_headNotDigit {rest : List Char} (h : goodFollow rest) :
    headNotDigit rest := by
  cases rest with
  | nil => trivial
  | cons c cs => exact h.1

theorem digitChar_isDigit : ∀ d : ℕ, (digitChar d).isDigit = true := by
  intro d
  match d with
  | 0 | 1 | 2 | 3 | 4 | 5 | 6 | 7 | 8 => decide
  | _ + 9 => rfl

theorem digitVal_digitChar : ∀ d : ℕ, d < 10 → digitVal (digitChar d) = d := by decide

theorem takeDigits_run (ds : List ℕ) (rest : List Char) (hds : ∀ d ∈ ds, d < 10)
    (hrest : headNotDigit rest) : takeDigits (ds.map digitChar ++ rest) = (ds, rest) := by
  induction ds with
  | nil =>
    simp only [List.map_nil, List.nil_append]
    cases rest with
    | nil => rfl
    | cons c cs =>
      have hc : c.isDigit = false := hrest
      simp [takeDigits, hc]
  | cons d ds ih =>
    have hd : d < 10 := hds d (List.mem_cons_self _ _)
    have ih2 := ih (fun x hx => hds x (List.mem_cons_of_mem _ hx))
    simp [takeDigits, digitChar_isDigit d, ih2, digitVal_digitChar d hd]

theorem digitsVal_append_single (xs : List ℕ) (d : ℕ) :
    digitsVal (xs ++ [d]) = 10 * digitsVal xs + d := by
  unfold digitsVal
  rw [List.foldl_append]
  rfl

theorem digitsVal_reverse (l : List ℕ) : digitsVal l.reverse = Nat.ofDigits 10 l := by
  induction l with
  | nil => rfl
  | cons d l ih =>
    rw [List.reverse_cons, digitsVal_append_single, ih, Nat.ofDigits_cons]
    omega

theorem dsOf_val (n : ℕ) : digitsVal (dsOf n) = n := by
  unfold dsOf
  by_cases h : n = 0
  · rw [if_pos h, h]; rfl
  · rw [if_neg h]
    unfold natDigitsBE
    rw [digitsVal_reverse, Nat.ofDigits_digits]

theorem dsOf_lt (n : ℕ) : ∀ d ∈ dsOf n, d < 10 := by
  intro d hd
  unfold dsOf at hd
  by_cases h : n = 0
  · rw [if_pos h] at hd
    simp at hd
    omega
  · rw [if_neg h] at hd
    unfold natDigitsBE at hd
    rw [List.mem_reverse] at hd
    exact Nat.digits_lt_base (by norm_num) hd

theorem dsOf_ne_nil (n : ℕ) : dsOf n ≠ [] := by
  unfold dsOf
  by_cases h : n = 0
  · rw [if_pos h]; simp
  · rw [if_neg h]
    unfold natDigitsBE
    simp [Nat.digits_ne_nil_iff_ne_zero, h]

theorem natChars_ne_nil (n : ℕ) : natChars n ≠ [] := by
  simp [natChars, dsOf_ne_nil n]

theorem natChars_digits (n : ℕ) : ∀ c ∈ natChars n, c.isDigit = true := by
  intro c hc
  unfold natChars at hc
  obtain ⟨d, _, rfl⟩ := List.mem_map.mp hc
  exact digitChar_isDigit d

theorem ofDigits_zero_of_all_zero (l : List ℕ) (h : ∀ x ∈ l, x = 0) :
    Nat.ofDigits 10 l = 0 := by
  induction l with
  | nil => rfl
  | cons d l ih =>
    rw [Nat.ofDigits_cons, h d (List.mem_cons_self _ _),
      ih (fun x hx => h x (List.mem_cons_of_mem _ hx))]

theorem digits_len_le_of_lt (F : ℕ) (h : F < 10 ^ 7) : (Nat.digits 10 F).length ≤ 7 := by
  by_cases hF : F = 0
  · subst hF; simp
  · by_contra hlen
    push_neg at hlen
    have h1 := Nat.base_pow_length_digits_le 10 F (by norm_num) hF
    have h2 : (10 : ℕ) ^ 8 ≤ 10 ^ (Nat.digits 10 F).length :=
      Nat.pow_le_pow_right (by norm_num) (by omega)
    have e : (10 : ℕ) ^ 8 = 10 * 10 ^ 7 := by norm_num
    omega

/-- The displayed fraction digits of `F < 10^7` reconstruct `F` when scaled
back by the dropped trailing zeros, fit in 7 digits, are nonempty for
`F ≠ 0`, and are decimal digits. -/
theorem fracDigitsBE_spec (F : ℕ) (hF : F < 10 ^ 7) (hne : F ≠ 0) :
    digitsVal (fracDigitsBE F) * 10 ^ (7 - (fracDigitsBE F).length) = F ∧
    (fracDigitsBE F).length ≤ 7 ∧ fracDigitsBE F ≠ [] ∧
    ∀ d ∈ fracDigitsBE F, d < 10 := by
  have hlen : (Nat.digits 10 F).length ≤ 7 := digits_len_le_of_lt F hF
  set ds := Nat.digits 10 F with hds
  set padded := ds ++ List.replicate (7 - ds.length) 0 with hpad
  set tw := padded.takeWhile (fun d => d == 0) with htw
  set dw := padded.dropWhile (fun d => d == 0) with hdw
  have hfrac : fracDigitsBE F = dw.reverse := rfl
  have hpadlen : padded.length = 7 := by
    rw [hpad]
    simp only [List.length_append, List.length_replicate]
    omega
  have hofpad : Nat.ofDigits 10 padded = F := by
    rw [hpad, Nat.ofDigits_append]
    have hz : Nat.ofDigits 10 (List.replicate (7 - ds.length) 0) = 0 :=
      ofDigits_zero_of_all_zero _ (by simp)
    rw [hz, hds, Nat.ofDigits_digits]
    ring
  have hsplit : tw ++ dw = padded := List.takeWhile_append_dropWhile _ _
  have htwzero : ∀ x ∈ tw, x = 0 := by
    intro x hx
    have hp := List.mem_takeWhile_imp hx
    simpa using hp
  have hofdw : F = 10 ^ tw.length * Nat.ofDigits 10 dw := by
    calc F = Nat.ofDigits 10 padded := hofpad.symm
      _ = Nat.ofDigits 10 (tw ++ dw) := by rw [hsplit]
      _ = Nat.ofDigits 10 tw + 10 ^ tw.length * Nat.ofDigits 10 dw := by
          rw [Nat.ofDigits_append]
      _ = 10 ^ tw.length * Nat.ofDigits 10 dw := by
          rw [ofDigits_zero_of_all_zero tw htwzero]
          omega
  have hlens : tw.length + dw.length = 7 := by
    rw [← List.length_append, hsplit, hpadlen]
  have hpadlt : ∀ d ∈ padded, d < 10 := by
    intro d hd
    rw [hpad] at hd
    rcases List.mem_append.mp hd with hd | hd
    · exact Nat.digits_lt_base (by norm_num) (hds ▸ hd)
    · have := List.eq_of_mem_replicate hd
      omega
  refine ⟨?_, ?_, ?_, ?_⟩
  · rw [hfrac, digitsVal_reverse, List.length_reverse]
    have h7 : 7 - dw.length = tw.length := by omega
    rw [h7, hofdw]
    ring
  · rw [hfrac, List.length_reverse]
    omega
  · rw [hfrac]
    intro hcon
    have hdwnil : dw = [] := List.reverse_eq_nil_iff.mp hcon
    rw [hdwnil] at hofdw
    simp [Nat.ofDigits] at hofdw
    exact hne hofdw
  · intro d hd
    rw [hfrac, List.mem_reverse] at hd
    have : d ∈ padded := by
      rw [← hsplit]
      exact List.mem_append.mpr (Or.inr hd)
    exact hpadlt d this

theorem joinComma_eq (x : List Char) (xs : List (List Char)) :
    joinComma (x :: xs) = x ++ commaTail xs := by
  induction xs generalizing x with
  | nil => simp [joinComma, commaTail]
  | cons y ys ih =>
    show x ++ ',' :: joinComma (y :: ys) = x ++ commaTail (y :: ys)
    rw [ih y]
    rfl

theorem commaTail_length_ge (xs : List (List Char)) :
    xs.length ≤ (commaTail xs).length := by
  induction xs with
  | nil => simp [commaTail]
  | cons x xs ih =>
    show xs.length + 1 ≤ (',' :: (x ++ commaTail xs)).length
    simp only [List.length_cons, List.length_append]
    omega

theorem joinComma_length_ge (xs : List (List Char)) (h : ∀ x ∈ xs, x ≠ []) :
    xs.length ≤ (joinComma xs).length := by
  cases xs with
  | nil => simp [joinComma]
  | cons x xs =>
    rw [joinComma_eq]
    have hx : 1 ≤ x.length := by
      have := h x (List.mem_cons_self _ _)
      cases x with
      | nil => exact absurd rfl this
      | cons a l => simp
    have := commaTail_length_ge xs
    simp only [List.length_cons, List.length_append]
    omega

theorem spill_foldl_aux (rs : List (RoadSurfaceWay ℚ)) (acc : List Char) (n : ℕ)
    (hn : 0 < n) :
    (rs.foldl (fun acc r =>
      (acc.1 ++ (if 0 < acc.2 then [','] else []) ++ serializeSurfaceEntry r,
        acc.2 + 1)) (acc, n)).1 =
      acc ++ commaTail (rs.map serializeSurfaceEntry) := by
  induction rs generalizing acc n with
  | nil => simp [commaTail]
  | cons r rs ih =>
    rw [List.foldl_cons]
    have h1 : (if 0 < n then [','] else [',']) = [','] := if_pos hn ▸ rfl
    rw [show ((acc, n) : List Char × ℕ).1 ++ (if 0 < ((acc, n) : List Char × ℕ).2
        then [','] else []) ++ serializeSurfaceEntry r =
        acc ++ ([','] ++ serializeSurfaceEntry r) from by
      simp [if_pos hn, List.append_assoc]]
    rw [ih _ (n + 1) (by omega)]
    simp [commaTail, List.append_assoc]

/-- The spill loop produces exactly the comma-joined entry serializations. -/
theorem spillSink_eq (records : List (RoadSurfaceWay ℚ)) :
    spillSink records = joinComma (records.map serializeSurfaceEntry) := by
  cases records with
  | nil => rfl
  | cons r rs =>
    unfold spillSink
    rw [List.foldl_cons]
    have h0 : ((([] : List Char), (0 : ℕ)).1 ++ (if 0 < ((([] : List Char), (0 : ℕ))).2
        then [','] else []) ++ serializeSurfaceEntry r, ((([] : List Char), (0 : ℕ))).2 + 1) =
        ((serializeSurfaceEntry r : List Char), (1 : ℕ)) := by
      simp
    rw [h0, spill_foldl_aux rs (serializeSurfaceEntry r) 1 (by omega), List.map_cons,
      joinComma_eq]

theorem expectChars_self_append (p cs : List Char) : expectChars p (p ++ cs) = some cs := by
  induction p with
  | nil => rfl
  | cons c p ih => simp [expectChars, ih]

theorem takeUntilQuote_round (s rest : List Char) (h : ∀ c ∈ s, c ≠ '\"') :
    takeUntilQuote (s ++ '\"' :: rest) = some (s, rest) := by
  induction s with
  | nil => simp [takeUntilQuote]
  | cons c s ih =>
    have hc := h c (List.mem_cons_self _ _)
    have ih2 := ih (fun x hx => h x (List.mem_cons_of_mem _ hx))
    simp [takeUntilQuote, hc, ih2]

theorem parseNumCore_round (neg : Bool) (I F : ℕ) (hF : F < 10 ^ 7) (rest : List Char)
    (hrest : goodFollow rest) :
    parseNumCore (natChars I ++
      (if F = 0 then [] else '.' :: (fracDigitsBE F).map digitChar) ++ rest) neg =
      some (qOfScaled (if neg then -((I : ℤ) * 10 ^ 7 + (F : ℤ))
        else (I : ℤ) * 10 ^ 7 + (F : ℤ)), rest) := by
  have hval0 : ∀ ds : List ℕ, digitsVal ds = I →
      qOfScaled (scaledOf neg (digitsVal ds) 0 0) =
      qOfScaled (if neg then -((I : ℤ) * 10 ^ 7 + (0 : ℕ))
        else (I : ℤ) * 10 ^ 7 + ((0 : ℕ) : ℤ)) := by
    intro ds hds
    rw [hds]
    unfold scaledOf
    cases neg <;> simp
  by_cases hF0 : F = 0
  · subst hF0
    rw [if_pos rfl, List.append_nil]
    unfold parseNumCore natChars
    rw [takeDigits_run (dsOf I) rest (dsOf_lt I) (goodFollow_headNotDigit hrest)]
    simp only
    rw [if_neg (dsOf_ne_nil I)]
    cases rest with
    | nil =>
      simp only
      rw [hval0 (dsOf I) (dsOf_val I)]
    | cons c r2 =>
      have hc2 : c ≠ '.' := hrest.2
      simp only
      rw [if_neg hc2, hval0 (dsOf I) (dsOf_val I)]
  · rw [if_neg hF0]
    obtain ⟨hval, hlen7, hfne, hdig⟩ := fracDigitsBE_spec F hF hF0
    have hshape : natChars I ++ ('.' :: (fracDigitsBE F).map digitChar) ++ rest =
        (dsOf I).map digitChar ++ ('.' :: ((fracDigitsBE F).map digitChar ++ rest)) := by
      simp [natChars, List.append_assoc]
    rw [hshape]
    unfold parseNumCore
    rw [takeDigits_run (dsOf I) _ (dsOf_lt I) (by exact rfl)]
    simp only
    rw [if_neg (dsOf_ne_nil I), if_true]
    rw [takeDigits_run (fracDigitsBE F) rest hdig (goodFollow_headNotDigit hrest)]
    simp only
    rw [if_neg (by
      push_neg
      exact ⟨hfne, by omega⟩)]
    have hvalz : ((digitsVal (fracDigitsBE F) : ℤ)) *
        (10 : ℤ) ^ (7 - (fracDigitsBE F).length) = (F : ℤ) := by
      exact_mod_cast congrArg (Nat.cast : ℕ → ℤ) hval
    unfold scaledOf
    rw [dsOf_val]
    cases neg <;> simp only [Bool.false_eq_true, if_true, if_false, reduceIte] <;>
      rw [hvalz]

theorem isDigit_ne_dash {c : Char} (h : c.isDigit = true) : c ≠ '-' := by
  rintro rfl
  exact absurd h (by decide)

theorem isDigit_ne_rbracket {c : Char} (h : c.isDigit = true) : c ≠ ']' := by
  rintro rfl
  exact absurd h (by decide)

theorem parseNumber_round (k : ℤ) (rest : List Char) (hrest : goodFollow rest) :
    parseNumber (renderScaled k ++ rest) = some (qOfScaled k, rest) := by
  have hFlt : k.natAbs % 10 ^ 7 < 10 ^ 7 := Nat.mod_lt _ (by norm_num)
  have hdm := Nat.div_add_mod k.natAbs (10 ^ 7)
  have h7n : (10 : ℕ) ^ 7 = 10000000 := by norm_num
  have h7z : (10 : ℤ) ^ 7 = 10000000 := by norm_num
  by_cases hk : k < 0
  · have hkk : -(((k.natAbs / 10 ^ 7 : ℕ) : ℤ) * 10 ^ 7 + ((k.natAbs % 10 ^ 7 : ℕ) : ℤ)) = k := by
      rw [h7z, h7n]
      rw [h7n] at hdm
      omega
    have hshape : renderScaled k ++ rest =
        '-' :: (natChars (k.natAbs / 10 ^ 7) ++
          (if k.natAbs % 10 ^ 7 = 0 then []
           else '.' :: (fracDigitsBE (k.natAbs % 10 ^ 7)).map digitChar) ++ rest) := by
      unfold renderScaled
      rw [if_pos hk]
      simp [List.append_assoc]
    rw [hshape]
    simp only [parseNumber]
    rw [if_true]
    rw [parseNumCore_round true _ _ hFlt rest hrest]
    simp only [if_true]
    rw [hkk]
  · have hkk : ((k.natAbs / 10 ^ 7 : ℕ) : ℤ) * 10 ^ 7 + ((k.natAbs % 10 ^ 7 : ℕ) : ℤ) = k := by
      rw [h7z, h7n]
      rw [h7n] at hdm
      omega
    obtain ⟨c, tl, hnc⟩ : ∃ c tl, natChars (k.natAbs / 10 ^ 7) = c :: tl := by
      cases h : natChars (k.natAbs / 10 ^ 7) with
      | nil => exact absurd h (natChars_ne_nil _)
      | cons c tl => exact ⟨c, tl, rfl⟩
    have hcdig : c.isDigit = true :=
      natChars_digits _ c (hnc ▸ List.mem_cons_self _ _)
    have hshape : renderScaled k ++ rest =
        c :: (tl ++
          ((if k.natAbs % 10 ^ 7 = 0 then []
            else '.' :: (fracDigitsBE (k.natAbs % 10 ^ 7)).map digitChar) ++ rest)) := by
      unfold renderScaled
      rw [if_neg hk, hnc]
      simp [List.append_assoc]
    rw [hshape]
    simp only [parseNumber]
    rw [if_neg (isDigit_ne_dash hcdig)]
    have hback : c :: (tl ++
        ((if k.natAbs % 10 ^ 7 = 0 then []
          else '.' :: (fracDigitsBE (k.natAbs % 10 ^ 7)).map digitChar) ++ rest)) =
        natChars (k.natAbs / 10 ^ 7) ++
          (if k.natAbs % 10 ^ 7 = 0 then []
           else '.' :: (fracDigitsBE (k.natAbs % 10 ^ 7)).map digitChar) ++ rest := by
      rw [hnc]
      simp [List.append_assoc]
    rw [hback]
    rw [parseNumCore_round false _ _ hFlt rest hrest]
    simp only [Bool.false_eq_true, if_false]
    rw [hkk]

theorem renderQ7c_round (q : ℚ) (hden : (q * 10 ^ 7).den = 1) (rest : List Char)
    (hrest : goodFollow rest) :
    parseNumber (renderQ7c q ++ rest) = some (q, rest) := by
  rw [renderQ7c, parseNumber_round _ _ hrest]
  have hnum : (((q * 10 ^ 7).num : ℚ)) = q * 10 ^ 7 := by
    conv_rhs => rw [← Rat.num_div_den (q * 10 ^ 7)]
    rw [hden]
    simp
  unfold qOfScaled
  rw [hnum]
  rw [mul_div_assoc, div_self (by norm_num : ((10 : ℚ) ^ 7) ≠ 0), mul_one]

theorem renderScaled_head (k : ℤ) :
    ∃ c tl, renderScaled k = c :: tl ∧ (c = '-' ∨ c.isDigit = true) := by
  unfold renderScaled
  by_cases hk : k < 0
  · rw [if_pos hk]
    exact ⟨'-', _, rfl, Or.inl rfl⟩
  · rw [if_neg hk]
    simp only [List.nil_append]
    cases hnc : natChars (k.natAbs / 10 ^ 7) with
    | nil => exact absurd hnc (natChars_ne_nil _)
    | cons c tl =>
      refine ⟨c, _, by rw [List.cons_append], Or.inr ?_⟩
      exact natChars_digits _ c (hnc ▸ List.mem_cons_self _ _)

theorem renderQ7c_ne_nil (q : ℚ) : renderQ7c q ≠ [] := by
  obtain ⟨c, tl, h, _⟩ := renderScaled_head (q * 10 ^ 7).num
  rw [renderQ7c, h]
  simp

theorem parseNumList_round (l : List ℚ) (hne : l ≠ [])
    (hden : ∀ q ∈ l, (q * 10 ^ 7).den = 1) (r' : List Char) (fuel : ℕ)
    (hfuel : l.length ≤ fuel) :
    parseNumList fuel (joinComma (l.map renderQ7c) ++ (']' :: r')) =
      some (l, ']' :: r') := by
  induction l generalizing fuel with
  | nil => exact absurd rfl hne
  | cons q l ih =>
    cases fuel with
    | zero => simp at hfuel
    | succ fuel =>
      have hdq : (q * 10 ^ 7).den = 1 := hden q (List.mem_cons_self _ _)
      cases l with
      | nil =>
        have hj : joinComma ([q].map renderQ7c) = renderQ7c q := rfl
        rw [hj]
        simp only [parseNumList]
        rw [renderQ7c_round q hdq _ (by exact ⟨rfl, by decide⟩)]
        simp only
        rw [if_neg (by decide : ¬(']' = ','))]
      | cons q2 l2 =>
        have hj : joinComma ((q :: q2 :: l2).map renderQ7c) =
            renderQ7c q ++ (',' :: joinComma ((q2 :: l2).map renderQ7c)) := by
          show joinComma (renderQ7c q :: (q2 :: l2).map renderQ7c) = _
          rfl
        rw [hj]
        have hassoc : (renderQ7c q ++ (',' :: joinComma ((q2 :: l2).map renderQ7c))) ++
            (']' :: r') =
            renderQ7c q ++ (',' :: (joinComma ((q2 :: l2).map renderQ7c) ++ (']' :: r'))) := by
          simp [List.append_assoc]
        rw [hassoc]
        simp only [parseNumList]
        rw [renderQ7c_round q hdq _ (by exact ⟨rfl, by decide⟩)]
        simp only
        rw [if_true]
        rw [ih (by simp) (fun x hx => hden x (List.mem_cons_of_mem _ hx)) fuel
          (by simp at hfuel ⊢; omega)]

theorem parseCoords_round (l : List ℚ) (hden : ∀ q ∈ l, (q * 10 ^ 7).den = 1)
    (rest : List Char) (fuel : ℕ) (hfuel : l.length ≤ fuel) :
    parseCoords fuel (joinComma (l.map renderQ7c) ++ (']' :: rest)) = some (l, rest) := by
  cases l with
  | nil =>
    show parseCoords fuel (']' :: rest) = some ([], rest)
    simp only [parseCoords]
    rw [if_true]
  | cons q l =>
    obtain ⟨c, tl, hhead, hc⟩ := renderScaled_head (q * 10 ^ 7).num
    have hq : renderQ7c q = c :: tl := hhead
    have hcne : c ≠ ']' := by
      rcases hc with rfl | hc
      · decide
      · exact isDigit_ne_rbracket hc
    have hj : joinComma ((q :: l).map renderQ7c) ++ (']' :: rest) =
        c :: (tl ++ commaTail (l.map renderQ7c) ++ (']' :: rest)) := by
      rw [List.map_cons, joinComma_eq, hq]
      simp [List.append_assoc]
    rw [hj]
    simp only [parseCoords]
    rw [if_neg hcne]
    have hback : c :: (tl ++ commaTail (l.map renderQ7c) ++ (']' :: rest)) =
        joinComma ((q :: l).map renderQ7c) ++ (']' :: rest) := by
      rw [List.map_cons, joinComma_eq, hq]
      simp [List.append_assoc]
    rw [hback]
    rw [parseNumList_round (q :: l) (by simp) hden rest fuel hfuel]
    simp only
    rw [if_true]

theorem serializeSurfaceEntry_shape (r : RoadSurfaceWay ℚ) (rest : List Char) :
    serializeSurfaceEntry r ++ rest =
      entryOpen ++ (r.surface.data ++ ('\"' :: (entryMid2 ++
        (joinComma (r.coords.map renderQ7c) ++ (']' :: ('\x7d' :: rest)))))) := by
  have hclose : entryClose = ']' :: '\x7d' :: [] := rfl
  rw [serializeSurfaceEntry, hclose]
  simp [List.append_assoc]

theorem serializeSurfaceEntry_ne_nil (r : RoadSurfaceWay ℚ) :
    serializeSurfaceEntry r ≠ [] := by
  have h : entryOpen = '\x7b' :: ("\"surface\":\"").data := rfl
  rw [serializeSurfaceEntry, h]
  simp

theorem coords_le_join_len (l : List ℚ) :
    l.length ≤ (joinComma (l.map renderQ7c)).length := by
  have h := joinComma_length_ge (l.map renderQ7c) (by
    intro x hx
    obtain ⟨q, _, rfl⟩ := List.mem_map.mp hx
    exact renderQ7c_ne_nil q)
  simpa using h

theorem parseEntry_round (r : RoadSurfaceWay ℚ) (rest : List Char)
    (hsurf : ∀ c ∈ r.surface.data, c ≠ '\"')
    (hden : ∀ q ∈ r.coords, (q * 10 ^ 7).den = 1) :
    parseEntry (serializeSurfaceEntry r ++ rest) = some (r, rest) := by
  have hfuel : r.coords.length ≤ (serializeSurfaceEntry r ++ rest).length + 1 := by
    have h1 := coords_le_join_len r.coords
    have h2 : (joinComma (r.coords.map renderQ7c)).length ≤
        (serializeSurfaceEntry r ++ rest).length := by
      rw [serializeSurfaceEntry]
      simp only [List.length_append]
      omega
    omega
  rw [parseEntry]
  rw [serializeSurfaceEntry_shape r rest] at hfuel ⊢
  rw [expectChars_self_append]
  simp only
  rw [takeUntilQuote_round r.surface.data _ hsurf]
  simp only
  rw [expectChars_self_append]
  simp only
  rw [parseCoords_round r.coords hden ('\x7d' :: rest) _ (by
    simp only [List.length_append] at hfuel ⊢
    omega)]
  simp only
  have hx : expectChars ['\x7d'] ('\x7d' :: rest) = some rest := rfl
  rw [hx]

theorem parseEntryList_round (records : List (RoadSurfaceWay ℚ)) (hne : records ≠ [])
    (hsurf : ∀ r ∈ records, ∀ c ∈ r.surface.data, c ≠ '\"')
    (hden : ∀ r ∈ records, ∀ q ∈ r.coords, (q * 10 ^ 7).den = 1)
    (r' : List Char) (fuel : ℕ) (hfuel : records.length ≤ fuel) :
    parseEntryList fuel (joinComma (records.map serializeSurfaceEntry) ++ (']' :: r')) =
      some (records, ']' :: r') := by
  induction records generalizing fuel with
  | nil => exact absurd rfl hne
  | cons r rs ih =>
    cases fuel with
    | zero => simp at hfuel
    | succ fuel =>
      have hs : ∀ c ∈ r.surface.data, c ≠ '\"' := hsurf r (List.mem_cons_self _ _)
      have hd : ∀ q ∈ r.coords, (q * 10 ^ 7).den = 1 := hden r (List.mem_cons_self _ _)
      cases rs with
      | nil =>
        have hj : joinComma ([r].map serializeSurfaceEntry) = serializeSurfaceEntry r := rfl
        rw [hj]
        simp only [parseEntryList]
        rw [parseEntry_round r _ hs hd]
        simp only
        rw [if_neg (by decide : ¬(']' = ','))]
      | cons r2 rs2 =>
        have hj : joinComma ((r :: r2 :: rs2).map serializeSurfaceEntry) ++ (']' :: r') =
            serializeSurfaceEntry r ++
              (',' :: (joinComma ((r2 :: rs2).map serializeSurfaceEntry) ++ (']' :: r'))) := by
          show joinComma (serializeSurfaceEntry r ::
            (r2 :: rs2).map serializeSurfaceEntry) ++ (']' :: r') = _
          simp [joinComma, List.append_assoc]
        rw [hj]
        simp only [parseEntryList]
        rw [parseEntry_round r _ hs hd]
        simp only
        rw [if_true]
        rw [ih (by simp) (fun x hx => hsurf x (List.mem_cons_of_mem _ hx))
          (fun x hx => hden x (List.mem_cons_of_mem _ hx)) fuel
          (by simp at hfuel ⊢; omega)]

/-- C6: the scratch sink's final contents equal the comma-joined JSON entry
serializations of the spilled records in encounter order (a comma before
every entry except the first), and wrapping them in `[` `]` yields a text
that parses back to exactly the record list. The hypotheses restrict to
surface strings with no `"` character (which JSON.stringify would escape)
and to coordinates representable with 7 decimals, which is what the
classifier spills. -/
theorem spill_sink_json_roundtrip (records : List (RoadSurfaceWay ℚ))
    (hsurf : ∀ r ∈ records, ∀ c ∈ r.surface.data, c ≠ '\"')
    (hden : ∀ r ∈ records, ∀ q ∈ r.coords, (q * 10 ^ 7).den = 1) :
    spillSink records = joinComma (records.map serializeSurfaceEntry) ∧
    parseSurfaceArray ('[' :: (spillSink records ++ [']'])) = some records := by
  refine ⟨spillSink_eq records, ?_⟩
  rw [spillSink_eq records]
  cases records with
  | nil => rfl
  | cons r rs =>
    have hjoin : joinComma ((r :: rs).map serializeSurfaceEntry) =
        serializeSurfaceEntry r ++ commaTail (rs.map serializeSurfaceEntry) := by
      rw [List.map_cons, joinComma_eq]
    obtain ⟨c0, tl0, hser⟩ : ∃ c0 tl0, serializeSurfaceEntry r = c0 :: tl0 := by
      cases h : serializeSurfaceEntry r with
      | nil => exact absurd h (serializeSurfaceEntry_ne_nil r)
      | cons c0 tl0 => exact ⟨c0, tl0, rfl⟩
    simp only [parseSurfaceArray]
    rw [if_true]
    have hne1 : joinComma ((r :: rs).map serializeSurfaceEntry) ++ [']'] ≠ [']'] := by
      intro hcon
      have := congrArg List.length hcon
      rw [hjoin, hser] at this
      simp at this
    rw [if_neg hne1]
    have hlen : (r :: rs).length ≤
        (joinComma ((r :: rs).map serializeSurfaceEntry) ++ [']']).length + 1 := by
      have h1 := joinComma_length_ge ((r :: rs).map serializeSurfaceEntry) (by
        intro x hx
        obtain ⟨s, _, rfl⟩ := List.mem_map.mp hx
        exact serializeSurfaceEntry_ne_nil s)
      simp only [List.length_append, List.length_map] at h1 ⊢
      omega
    rw [show joinComma ((r :: rs).map serializeSurfaceEntry) ++ [']'] =
      joinComma ((r :: rs).map serializeSurfaceEntry) ++ (']' :: []) from rfl]
    rw [parseEntryList_round (r :: rs) (by simp) hsurf hden [] _ hlen]
    simp only
    rw [if_true]

/-- C6 witness: concrete evaluation at a one-record spill. -/
theorem spill_sink_json_roundtrip_witness :
    spillSink [{ surface := "asphalt", coords := [(1 : ℚ), 2] }] =
      joinComma ([({ surface := "asphalt", coords := [(1 : ℚ), 2] } :
        RoadSurfaceWay ℚ)].map serializeSurfaceEntry) ∧
    parseSurfaceArray ('[' ::
        (spillSink [{ surface := "asphalt", coords := [(1 : ℚ), 2] }] ++ [']'])) =
      some [{ surface := "asphalt", coords := [(1 : ℚ), 2] }] :=
  spill_sink_json_roundtrip [{ surface := "asphalt", coords := [(1 : ℚ), 2] }]
    (by decide)
    (by
      intro r hr q hq
      fin_cases hr
      fin_cases hq <;> norm_num)

end OsmExtract
